import Mathlib

/-!
# docker-logstash-forwarder

A shallow embedding of `forwarder/config/config.go` (configuration model and
storage-path resolution) and of the refresh debouncer of
`docker-logstash-forwarder.go`, followed by the properties proved about them.

Conventions of the embedding.

* Go strings are Lean strings. `strings.HasPrefix`, `strings.TrimPrefix` and
  `==` compare bytes; on valid UTF-8 text that is the same as comparing
  characters. `len` of a string is its UTF-8 byte count.
* A Go slice value is a `Slice`: the nil slice or an allocated sequence. Where
  the code assigns to elements through a copied slice header
  (`NewFromContainer`), the backing arrays are kept in a `Heap` and the headers
  are explicit.
* A Go `map[string]string` is a `StringMap`: its entries, with pairwise
  distinct keys. The order in which a `range` statement visits the entries is
  not part of the map: every execution of a `range` gets a `RangeOrder`.
* A call that can end in a run-time panic returns an `Outcome`.
* Log output is not part of the state; an expression evaluated only for a log
  line is kept when it can panic.
-/

namespace LogstashForwarder

/-! ## Go values -/

/-- A Go slice value: the nil slice, or an allocated (possibly empty) sequence. -/
inductive Slice (α : Type) where
  | nil : Slice α
  | mk (elems : List α) : Slice α
  deriving DecidableEq

/-- The elements of a slice; `range` over the nil slice visits nothing. -/
def Slice.toList {α : Type} : Slice α → List α
  | .nil => []
  | .mk l => l

/-- Go `s == nil`. -/
def Slice.isNil {α : Type} : Slice α → Bool
  | .nil => true
  | .mk _ => false

/-- Go `len(s)`. -/
def Slice.len {α : Type} (s : Slice α) : Nat := s.toList.length

/-- Go `append(s, x)`: the result is never nil. -/
def Slice.append {α : Type} (s : Slice α) (x : α) : Slice α :=
  .mk (s.toList ++ [x])

/-- A slice with its elements replaced by `f` of them; the nil slice stays nil. -/
def Slice.mapElems {α β : Type} (f : List α → List β) : Slice α → Slice β
  | .nil => .nil
  | .mk l => .mk (f l)

/-- A Go `map[string]string`, given by its entries (pairwise distinct keys). -/
structure StringMap where
  entries : List (String × String)
  deriving DecidableEq

/-- Go `make(map[string]string)`. -/
def StringMap.empty : StringMap := ⟨[]⟩

/-- Go `m[k]`: the value stored under `k`, or the empty string. -/
def StringMap.get (m : StringMap) (k : String) : String :=
  match m.entries.find? (fun kv => kv.1 == k) with
  | some kv => kv.2
  | none => ""

/-- Go `m[k] = v`: overwrite the entry of `k` if there is one, else add one. -/
def StringMap.set (m : StringMap) (k v : String) : StringMap :=
  if m.entries.any (fun kv => kv.1 == k) then
    ⟨m.entries.map (fun kv => if kv.1 == k then (k, v) else kv)⟩
  else
    ⟨m.entries ++ [(k, v)]⟩

/-- The keys of a map are pairwise distinct. -/
def StringMap.WF (m : StringMap) : Prop := (m.entries.map Prod.fst).Nodup

/-- One execution of `for k, v := range m`: the entries of `m`, each visited
once, in an order the runtime chooses anew for every `range` statement. -/
def RangeOrder (m : StringMap) : Type :=
  { l : List (String × String) // l.Perm m.entries }

/-- The result of a call: a normal return, or a run-time panic. -/
inductive Outcome (α : Type) where
  | returned (a : α) : Outcome α
  | panicked : Outcome α
  deriving DecidableEq

/-- Go `error` values, by their message. -/
abbrev Error := String

/-- Go `strings.HasPrefix(s, pre)`. -/
def HasPrefix (s pre : String) : Bool := pre.data.isPrefixOf s.data

/-- Go `strings.TrimPrefix(s, pre)`: `s` without the leading `pre`, or `s`
itself when `pre` is no prefix of it. -/
def TrimPrefix (s pre : String) : String :=
  if HasPrefix s pre then ⟨s.data.drop pre.data.length⟩ else s

/-! ## `forwarder/config/config.go` -/

/-- Modelled from the spec: the declaration of `docker.Config` belongs to the
go-dockerclient library and is not among the sources; these are the fields the
code reads ("configured hostname ... image" of the container snapshot). -/
structure Config where
  Hostname : String
  Image : String
  deriving DecidableEq

/-- Modelled from the spec: the declaration of `docker.Container` belongs to
the go-dockerclient library and is not among the sources; these are the fields
the code reads (identifier, name, storage driver, configuration, and the volume
mapping from container path to host path). The pointers `container` and
`container.Config` are taken to be non-nil. -/
structure Container where
  ID : String
  Name : String
  Driver : String
  Config : Config
  Volumes : StringMap
  deriving DecidableEq

/-- Network section of a configuration. -/
structure Network where
  Servers : Slice String
  SslCertificate : String
  SslKey : String
  SslCa : String
  Timeout : Int
  deriving DecidableEq

/-- File section of a configuration. -/
structure File where
  Paths : Slice String
  Fields : StringMap
  deriving DecidableEq

/-- The root structure of a configuration. -/
structure LogstashForwarderConfig where
  Network : Network
  Files : Slice File
  deriving DecidableEq

/-- `AddContainerLogFile` on a non-nil receiver: the configuration after the
call. -/
def AddContainerLogFile (config : LogstashForwarderConfig) (container : Container) :
    LogstashForwarderConfig :=
  let id := container.ID
  let paths : Slice String :=
    .mk ["/var/lib/docker/containers/" ++ id ++ "/" ++ id ++ "-json.log"]
  let fields := StringMap.empty
  let fields := fields.set "type" "docker"
  let fields := fields.set "codec" "json"
  let fields := fields.set "docker.id" id
  let fields := fields.set "docker.hostname" container.Config.Hostname
  let fields := fields.set "docker.name" container.Name
  let fields := fields.set "docker.image" container.Config.Image
  let file : File := { Paths := paths, Fields := fields }
  { config with Files := config.Files.append file }

/-- `NewFromDefault`: the value the returned pointer refers to. -/
def NewFromDefault (logstashEndpoint : String) : LogstashForwarderConfig :=
  let network : Network :=
    { Servers := .mk [logstashEndpoint]
      SslCertificate := "/mnt/logstash-forwarder/logstash-forwarder.crt"
      SslKey := "/mnt/logstash-forwarder/logstash-forwarder.key"
      SslCa := "/mnt/logstash-forwarder/logstash-forwarder.crt"
      Timeout := 15 }
  { Network := network, Files := .mk [] }

/-- The loop `for k, v := range container.Volumes` of `calculateFilePath`, run
over the entries in the order of this execution: the value returned from inside
the loop, or `none` when the loop ends without returning. -/
def rangeVolumes (path : String) : List (String × String) → Option String
  | [] => none
  | (k, v) :: rest =>
    if HasPrefix path k then some (v ++ TrimPrefix path k) else rangeVolumes path rest

/-- `calculateFilePath`; `order` is the order in which this call's `range`
visits the entries of `container.Volumes`. -/
def calculateFilePath (container : Container) (order : RangeOrder container.Volumes)
    (path : String) : String :=
  match rangeVolumes path order.val with
  | some hostPath => hostPath
  | none =>
    let pre := "/var/lib/docker/"
    let (pre, suffix) :=
      if container.Driver = "aufs" then (pre ++ "aufs/mnt", "")
      else if container.Driver = "devicemapper" then (pre ++ "devicemapper/mnt", "/rootfs")
      else (pre ++ "btrfs/subvolumes", "")
    pre ++ "/" ++ container.ID ++ suffix ++ path

/-- The zero value of `LogstashForwarderConfig`, as `new` allocates it. -/
def LogstashForwarderConfig.zero : LogstashForwarderConfig :=
  { Network := { Servers := .nil, SslCertificate := "", SslKey := "", SslCa := "", Timeout := 0 }
    Files := .nil }

/-- What `Decode(&logstashConfig)` meets in an opened file. The argument is a
pointer to the pointer variable `logstashConfig`, so the decoder may store into
the variable itself. -/
inductive Document where
  /-- Empty or malformed text, or a JSON value that is neither `null` nor an
  object fitting the structure: `Decode` returns this error. -/
  | undecodable (err : Error) : Document
  /-- The JSON literal `null`: `Decode` sets the pointer variable to nil and
  returns no error. -/
  | null : Document
  /-- A JSON object: `Decode` fills the structure the variable points to, which
  then holds `c`, and returns no error. -/
  | object (c : LogstashForwarderConfig) : Document
  deriving DecidableEq

/-- The state of the file at a path when `os.Open` is called on it. -/
inductive FileState where
  /-- Missing or unreadable: `os.Open` returns this error. -/
  | openFails (err : Error) : FileState
  /-- The file opens and holds this document. -/
  | content (doc : Document) : FileState
  deriving DecidableEq

/-- `jsonParser.Decode(&logstashConfig)`: the value of `logstashConfig`
afterwards, and the error returned. -/
def Decode (doc : Document) (logstashConfig : Option LogstashForwarderConfig) :
    Option LogstashForwarderConfig × Option Error :=
  match doc with
  | .undecodable err => (logstashConfig, some err)
  | .null => (none, none)
  | .object c => (some c, none)

/-- `NewFromFile`: the returned pointer (`none` is nil) and error (`none` is
nil), against a file system `fs`. The deferred `configFile.Close()` on the nil
file of a failed `os.Open` returns an error and does not panic. -/
def NewFromFile (fs : String → FileState) (path : String) :
    Option LogstashForwarderConfig × Option Error :=
  match fs path with
  | .openFails err => (none, some err)
  | .content doc =>
    let logstashConfig := some LogstashForwarderConfig.zero
    match Decode doc logstashConfig with
    | (_, some err) => (none, some err)
    | (logstashConfig, none) => (logstashConfig, none)

/-- The memory that the assignments of `NewFromContainer` write to: the
backing arrays of the `[]string` slices, by address. -/
abbrev Heap := Nat → List String

/-- The assignment `a[i] = v` to the backing array at address `array`. -/
def Heap.store (heap : Heap) (array i : Nat) (v : String) : Heap :=
  fun b => if b = array then (heap array).set i v else heap b

/-- The header of a `[]string` slice: nil, or the address of its backing array
and its length. Copying a slice copies the header, not the array. -/
inductive PathsHeader where
  | nil : PathsHeader
  | mk (array : Nat) (len : Nat) : PathsHeader
  deriving DecidableEq

/-- A `File` structure as it lies in memory: the header of `Paths`, and
`Fields`. -/
structure FileStruct where
  Paths : PathsHeader
  Fields : StringMap
  deriving DecidableEq

/-- The elements of `config.Files` as the decoder leaves them: the `Paths` of
the element at position `a + k` has a backing array of its own, at address
`a + k`. -/
def layoutFiles (a : Nat) : List File → List FileStruct
  | [] => []
  | file :: rest =>
    { Paths :=
        match file.Paths with
        | .nil => .nil
        | .mk l => .mk a l.length
      Fields := file.Fields } :: layoutFiles (a + 1) rest

/-- The backing arrays as the decoder leaves them: at address `a` the paths of
the File Source at position `a`. -/
def decodedHeap (files : List File) : Heap :=
  fun a =>
    match files[a]? with
    | some file => file.Paths.toList
    | none => []

/-- Reading `file.Paths` through its header. -/
def readPaths (heap : Heap) : PathsHeader → Slice String
  | .nil => .nil
  | .mk array len => .mk ((heap array).take len)

/-- The `File` value that a structure in memory stands for. -/
def readFile (heap : Heap) (file : FileStruct) : File :=
  { Paths := readPaths heap file.Paths, Fields := file.Fields }

/-- The inner loop `for i, path := range file.Paths` of `NewFromContainer`,
from index `i` with `remaining` elements to go: every iteration reads
`file.Paths[i]` and assigns the resolved path to `file.Paths[i]`, that is, to
the backing array the header refers to. The iteration at index `i` makes call
number `n` of `calculateFilePath`. The length was fixed when the loop began,
and in the decoder's layout every index below it is within the array. -/
def rangePaths (container : Container) (orders : Nat → RangeOrder container.Volumes)
    (array : Nat) : (i remaining n : Nat) → Heap → Heap
  | _, 0, _, heap => heap
  | i, remaining + 1, n, heap =>
    let path := (heap array).getD i ""
    rangePaths container orders array (i + 1) remaining (n + 1)
      (heap.store array i (calculateFilePath container (orders n) path))

/-- The outer loop `for _, file := range config.Files` of `NewFromContainer`.
The loop variable `file` is a copy of the element: the loop reads the header
in the copy and never writes to an element of `config.Files`; what it writes
is the backing array. -/
def rangeFiles (container : Container) (orders : Nat → RangeOrder container.Volumes)
    (n : Nat) : List FileStruct → Heap → Heap
  | [], heap => heap
  | file :: rest, heap =>
    match file.Paths with
    | .nil => rangeFiles container orders n rest heap
    | .mk array len =>
      rangeFiles container orders (n + len) rest
        (rangePaths container orders array 0 len n heap)

/-- `NewFromContainer`, against a file system `fs`; `orders k` is the order of
the `range` over the volumes in call number `k` of `calculateFilePath` (call 0
resolves the path of the override file). Reading `config.Files` through a nil
pointer is a run-time panic. The configuration returned is the one the
returned pointer refers to: the elements of `config.Files`, untouched by the
loops, read against the memory the loops leave. -/
def NewFromContainer (fs : String → FileState) (container : Container)
    (orders : Nat → RangeOrder container.Volumes) :
    Outcome (Option LogstashForwarderConfig × Option Error) :=
  let confPath := calculateFilePath container (orders 0) "/etc/logstash-forwarder.conf"
  match NewFromFile fs confPath with
  | (_, some err) => .returned (none, some err)
  | (none, none) => .panicked
  | (some config, none) =>
    let files := config.Files.mapElems (layoutFiles 0)
    let heap := rangeFiles container orders 1 files.toList (decodedHeap config.Files.toList)
    .returned
      (some { Network := config.Network, Files := files.mapElems (List.map (readFile heap)) },
        none)

/-- The paths a run of the inner loop leaves in an array `l`, when its first
iteration makes call number `n` of `calculateFilePath`. -/
def rewritePaths (container : Container) (orders : Nat → RangeOrder container.Volumes)
    (n : Nat) : List String → List String
  | [] => []
  | path :: rest =>
    calculateFilePath container (orders n) path :: rewritePaths container orders (n + 1) rest

/-- The File Sources a run of the outer loop leaves. -/
def rewriteFiles (container : Container) (orders : Nat → RangeOrder container.Volumes)
    (n : Nat) : List File → List File
  | [] => []
  | file :: rest =>
    { file with Paths := file.Paths.mapElems (rewritePaths container orders n) } ::
      rewriteFiles container orders (n + file.Paths.len) rest

/-! ## `docker-logstash-forwarder.go`: the refresh debouncer -/

/-- Modelled from the spec: the declaration of `docker.APIEvents` belongs to
the go-dockerclient library and is not among the sources; these are the fields
the code reads (the stream delivers `{containerID, status}`). -/
structure APIEvents where
  Status : String
  ID : String
  deriving DecidableEq

/-- A `time.Duration`: a signed 64-bit count of nanoseconds. -/
abbrev Duration := Int

/-- Two's-complement wrap-around of a 64-bit signed result. -/
def wrapInt64 (x : Int) : Int := (x + 2 ^ 63) % 2 ^ 64 - 2 ^ 63

/-- Go `time.Second`. -/
def Second : Duration := 1000000000

/-- Go `time.Duration(laziness)*time.Second`. -/
def quietPeriod (laziness : Int) : Duration := wrapInt64 (laziness * Second)

/-- A timer made by `time.AfterFunc(d, triggerRefresh)`. -/
structure Timer where
  d : Duration
  deriving DecidableEq

/-- The global `refresh`; the mutex is represented by running each critical
section as one step. -/
structure configRefresh where
  isTriggered : Bool
  timer : Option Timer
  deriving DecidableEq

/-- The state of the process once `listenToDockerEvents` is listening. -/
structure State where
  refresh : configRefresh
  /-- Deferred triggers: the `AfterFunc` timers whose `triggerRefresh` has not
  yet run its critical section. -/
  outstanding : List Timer
  /-- Regenerations in progress: the calls of `forwarder.GenerateConfig` (a
  function outside the sources) that have begun and not yet returned. -/
  regenerating : Nat
  deriving DecidableEq

/-- The state when the event loop starts: `refresh` has its zero value apart
from the flag cleared by the start-up call of `triggerRefresh`, whose
regeneration has returned before `listenToDockerEvents` is called. -/
def State.init : State :=
  { refresh := { isTriggered := false, timer := none }, outstanding := [], regenerating := 0 }

/-- The condition `event.Status == "start" || ... "stop" || ... "die"`. -/
def qualifies (event : APIEvents) : Bool :=
  event.Status == "start" || event.Status == "stop" || event.Status == "die"

/-- One iteration of the loop of `listenToDockerEvents`, on the value received
from the channel (`none` is a nil event). The log line of a qualifying event
evaluates `event.ID[:12]`, which panics on an identifier shorter than 12
bytes. -/
def listenToDockerEventsIter (laziness : Int) (s : State) (event : Option APIEvents) :
    Outcome State :=
  match event with
  | none => .returned s
  | some event =>
    if qualifies event then
      if event.ID.utf8ByteSize < 12 then .panicked
      else if !s.refresh.isTriggered then
        let timer : Timer := { d := quietPeriod laziness }
        .returned
          { s with
            refresh := { isTriggered := true, timer := some timer }
            outstanding := s.outstanding ++ [timer] }
      else .returned s
    else .returned s

/-- The loop of `listenToDockerEvents` over the events received one after the
other, with no other step of the process in between. -/
def listenToDockerEvents (laziness : Int) (s : State) : List (Option APIEvents) → Outcome State
  | [] => .returned s
  | event :: rest =>
    match listenToDockerEventsIter laziness s event with
    | .returned s1 => listenToDockerEvents laziness s1 rest
    | .panicked => .panicked

/-- `triggerRefresh`: the flag is cleared inside the critical section, then the
regeneration begins. -/
def triggerRefresh (s : State) : State :=
  { s with
    refresh := { s.refresh with isTriggered := false }
    regenerating := s.regenerating + 1 }

/-- The steps of the process. -/
inductive Action where
  /-- The event loop receives a value from the channel. -/
  | receive (event : Option APIEvents) : Action
  /-- The outstanding timer at position `i` expires and the runtime runs
  `triggerRefresh` for it, in a goroutine of its own. -/
  | fire (i : Nat) : Action
  /-- A call of `forwarder.GenerateConfig` returns. -/
  | complete : Action
  deriving DecidableEq

/-- One step; `none` when the step is not possible in `s` or ends the process
by a panic. -/
def exec (laziness : Int) (s : State) : Action → Option State
  | .receive event =>
    match listenToDockerEventsIter laziness s event with
    | .returned s1 => some s1
    | .panicked => none
  | .fire i =>
    if i < s.outstanding.length then
      some (triggerRefresh { s with outstanding := s.outstanding.eraseIdx i })
    else none
  | .complete =>
    if 0 < s.regenerating then some { s with regenerating := s.regenerating - 1 } else none

/-- A sequence of steps. -/
def run (laziness : Int) (s : State) : List Action → Option State
  | [] => some s
  | a :: rest =>
    match exec laziness s a with
    | some s1 => run laziness s1 rest
    | none => none

/-- The states the process can be in while it listens. -/
def Reachable (laziness : Int) (s : State) : Prop :=
  ∃ acts : List Action, run laziness State.init acts = some s

/-- A call on the timers of the `time` package. -/
inductive TimerCall where
  /-- Go `time.AfterFunc(d, triggerRefresh)`: a new timer is created. -/
  | afterFunc (d : Duration) : TimerCall
  /-- Go `t.Stop()` on an existing timer. -/
  | stop : TimerCall
  /-- Go `t.Reset(d)` on an existing timer. -/
  | reset (d : Duration) : TimerCall
  deriving DecidableEq

/-- One iteration of the loop of `listenToDockerEvents` as in
`listenToDockerEventsIter`, together with the calls on timers the iteration
makes, in order. The only such call in the source is the `time.AfterFunc` of
line 57. -/
def listenToDockerEventsIterCalls (laziness : Int) (s : State) (event : Option APIEvents) :
    Outcome (State × List TimerCall) :=
  match event with
  | none => .returned (s, [])
  | some event =>
    if qualifies event then
      if event.ID.utf8ByteSize < 12 then .panicked
      else if !s.refresh.isTriggered then
        let timer : Timer := { d := quietPeriod laziness }
        .returned
          ({ s with
             refresh := { isTriggered := true, timer := some timer }
             outstanding := s.outstanding ++ [timer] },
            [.afterFunc (quietPeriod laziness)])
      else .returned (s, [])
    else .returned (s, [])

/-- The loop of `listenToDockerEvents` over the events received one after the
other, with the calls on timers made so far (`calls`) and during the loop. -/
def listenToDockerEventsCalls (laziness : Int) (s : State) (calls : List TimerCall) :
    List (Option APIEvents) → Outcome (State × List TimerCall)
  | [] => .returned (s, calls)
  | event :: rest =>
    match listenToDockerEventsIterCalls laziness s event with
    | .returned (s1, made) => listenToDockerEventsCalls laziness s1 (calls ++ made) rest
    | .panicked => .panicked

/-! ## Concrete inputs and the debouncer's invariant -/

/-- A container with one volume, `/data` mounted from `/host/data`, on aufs. -/
def dataContainer : Container :=
  { ID := "abc123", Name := "/web", Driver := "aufs"
    Config := { Hostname := "web-1", Image := "nginx" }
    Volumes := ⟨[("/data", "/host/data")]⟩ }

/-- The only order in which the volumes of `dataContainer` can be visited. -/
def dataOrder : RangeOrder dataContainer.Volumes :=
  ⟨[("/data", "/host/data")], List.Perm.refl _⟩

/-- A devicemapper container with one volume that `/var/log/app.log` is not under. -/
def xyzContainer : Container :=
  { ID := "xyz", Name := "/db", Driver := "devicemapper"
    Config := { Hostname := "db-1", Image := "postgres" }
    Volumes := ⟨[("/srv", "/host/srv")]⟩ }

/-- The only order in which the volumes of `xyzContainer` can be visited. -/
def xyzOrder : RangeOrder xyzContainer.Volumes :=
  ⟨[("/srv", "/host/srv")], List.Perm.refl _⟩

/-- A container with nested mounts: `/data` and `/data/logs`. -/
def nestedContainer : Container :=
  { ID := "abc123", Name := "/web", Driver := "aufs"
    Config := { Hostname := "web-1", Image := "nginx" }
    Volumes := ⟨[("/data", "/host/a"), ("/data/logs", "/host/b")]⟩ }

/-- The volumes of `nestedContainer` visited with `/data` first. -/
def nestedOrderOuter : RangeOrder nestedContainer.Volumes :=
  ⟨[("/data", "/host/a"), ("/data/logs", "/host/b")], List.Perm.refl _⟩

/-- The volumes of `nestedContainer` visited with `/data/logs` first. -/
def nestedOrderInner : RangeOrder nestedContainer.Volumes :=
  ⟨[("/data/logs", "/host/b"), ("/data", "/host/a")], List.Perm.swap _ _ _⟩

/-- A container with sibling mounts `/data` and `/data2`: the first is a string
prefix of the second. -/
def siblingContainer : Container :=
  { ID := "abc123", Name := "/web", Driver := "aufs"
    Config := { Hostname := "web-1", Image := "nginx" }
    Volumes := ⟨[("/data", "/host/a"), ("/data2", "/host/b")]⟩ }

/-- The volumes of `siblingContainer` visited with `/data` first. -/
def siblingOrderData : RangeOrder siblingContainer.Volumes :=
  ⟨[("/data", "/host/a"), ("/data2", "/host/b")], List.Perm.refl _⟩

/-- The volumes of `siblingContainer` visited with `/data2` first. -/
def siblingOrderData2 : RangeOrder siblingContainer.Volumes :=
  ⟨[("/data2", "/host/b"), ("/data", "/host/a")], List.Perm.swap _ _ _⟩

/-- A container with nested mounts whose host paths are nested the same way. -/
def agreeingContainer : Container :=
  { ID := "abc123", Name := "/web", Driver := "aufs"
    Config := { Hostname := "web-1", Image := "nginx" }
    Volumes := ⟨[("/data", "/host/data"), ("/data/logs", "/host/data/logs")]⟩ }

/-- The volumes of `agreeingContainer` visited with `/data` first. -/
def agreeingOrderOuter : RangeOrder agreeingContainer.Volumes :=
  ⟨[("/data", "/host/data"), ("/data/logs", "/host/data/logs")], List.Perm.refl _⟩

/-- The volumes of `agreeingContainer` visited with `/data/logs` first. -/
def agreeingOrderInner : RangeOrder agreeingContainer.Volumes :=
  ⟨[("/data/logs", "/host/data/logs"), ("/data", "/host/data")], List.Perm.swap _ _ _⟩

/-- The content of an override file: one File Source with a path on the
`/data` volume and a path in the container's own file system. -/
def overrideConfig : LogstashForwarderConfig :=
  { Network := { Servers := .mk ["logstash:5043"], SslCertificate := "/crt",
                 SslKey := "/key", SslCa := "/ca", Timeout := 15 }
    Files := .mk [{ Paths := .mk ["/data/app.log", "/var/log/nginx.log"]
                    Fields := ⟨[("type", "nginx")]⟩ }] }

/-- A file system in which `dataContainer` holds an override file, at the aufs
path of `/etc/logstash-forwarder.conf`, naming a path on the `/data` volume and
a path in the container's own file system. -/
def overrideFs (path : String) : FileState :=
  if path = "/var/lib/docker/aufs/mnt/abc123/etc/logstash-forwarder.conf" then
    .content (.object overrideConfig)
  else .openFails "no such file or directory"

/-- A file system in which the override file of `dataContainer` holds the JSON
literal `null`. -/
def nullFs (path : String) : FileState :=
  if path = "/var/lib/docker/aufs/mnt/abc123/etc/logstash-forwarder.conf" then
    .content .null
  else .openFails "no such file or directory"

/-- The number of outstanding deferred triggers agrees with the flag. -/
def FlagCounts (s : State) : Prop :=
  s.outstanding.length = if s.refresh.isTriggered = true then 1 else 0

/-- A qualifying event with a full container identifier. -/
def startEvent : APIEvents :=
  { Status := "start", ID := "4f5c1e0a9b7d3c2e8f6a1b0c9d8e7f6a5b4c3d2e1f0a9b8c7d6e5f4a3b2c1d0e" }

/-! ## Path resolution -/

theorem hasPrefix_iff (s pre : String) :
    HasPrefix s pre = true ↔ ∃ rest : String, s = pre ++ rest := by
  unfold HasPrefix
  rw [List.isPrefixOf_iff_prefix]
  constructor
  · rintro ⟨t, ht⟩
    exact ⟨⟨t⟩, String.ext (by simp [ht])⟩
  · rintro ⟨rest, rfl⟩
    exact ⟨rest.data, by simp⟩

theorem trimPrefix_append (pre rest : String) : TrimPrefix (pre ++ rest) pre = rest := by
  have h : HasPrefix (pre ++ rest) pre = true := (hasPrefix_iff _ _).2 ⟨rest, rfl⟩
  unfold TrimPrefix
  rw [if_pos h]
  exact String.ext (by simp)

theorem rangeVolumes_none (path : String) (l : List (String × String))
    (h : ∀ kv ∈ l, HasPrefix path kv.1 = false) : rangeVolumes path l = none := by
  induction l with
  | nil => rfl
  | cons kv rest ih =>
    obtain ⟨k, v⟩ := kv
    have hk : HasPrefix path k = false := h (k, v) (List.mem_cons_self _ _)
    simp only [rangeVolumes, hk]
    exact ih (fun kv hkv => h kv (List.mem_cons_of_mem _ hkv))

theorem value_unique_of_nodup_keys (l : List (String × String)) (hnd : (l.map Prod.fst).Nodup)
    (k v w : String) (hv : (k, v) ∈ l) (hw : (k, w) ∈ l) : v = w := by
  induction l with
  | nil => simp at hv
  | cons kv rest ih =>
    rw [List.map_cons, List.nodup_cons] at hnd
    rcases List.mem_cons.1 hv with hv1 | hv1 <;> rcases List.mem_cons.1 hw with hw1 | hw1
    · rw [← hv1] at hw1
      exact (Prod.mk.inj hw1).2.symm
    · exact absurd (List.mem_map_of_mem Prod.fst hw1) (by rw [← hv1] at hnd; exact hnd.1)
    · exact absurd (List.mem_map_of_mem Prod.fst hv1) (by rw [← hw1] at hnd; exact hnd.1)
    · exact ih hnd.2 hv1 hw1

theorem rangeVolumes_unique (path : String) (l : List (String × String))
    (hnd : (l.map Prod.fst).Nodup) (k v : String) (hmem : (k, v) ∈ l)
    (hpre : HasPrefix path k = true)
    (huniq : ∀ kv ∈ l, HasPrefix path kv.1 = true → kv.1 = k) :
    rangeVolumes path l = some (v ++ TrimPrefix path k) := by
  induction l with
  | nil => simp at hmem
  | cons kv rest ih =>
    obtain ⟨k1, v1⟩ := kv
    by_cases h1 : HasPrefix path k1 = true
    · have hk : k1 = k := huniq (k1, v1) (List.mem_cons_self _ _) h1
      subst hk
      have hv : v1 = v :=
        value_unique_of_nodup_keys _ hnd k1 v1 v (List.mem_cons_self _ _) hmem
      subst hv
      simp only [rangeVolumes, h1, if_true]
    · have hne : k1 ≠ k := fun e => h1 (e ▸ hpre)
      have hmem1 : (k, v) ∈ rest := by
        rcases List.mem_cons.1 hmem with e | e
        · exact absurd (Prod.mk.inj e).1.symm hne
        · exact e
      rw [List.map_cons, List.nodup_cons] at hnd
      simp only [rangeVolumes, h1]
      exact ih hnd.2 hmem1 (fun kv hkv => huniq kv (List.mem_cons_of_mem _ hkv))

theorem rangeVolumes_order_none (m : StringMap) (order : RangeOrder m) (path : String)
    (hno : ∀ kv ∈ m.entries, HasPrefix path kv.1 = false) :
    rangeVolumes path order.val = none :=
  rangeVolumes_none path order.val (fun kv hkv => hno kv (order.property.mem_iff.1 hkv))

theorem rangeVolumes_order_unique (m : StringMap) (order : RangeOrder m) (path k v : String)
    (hwf : m.WF) (hmem : (k, v) ∈ m.entries) (hpre : HasPrefix path k = true)
    (huniq : ∀ kv ∈ m.entries, HasPrefix path kv.1 = true → kv.1 = k) :
    rangeVolumes path order.val = some (v ++ TrimPrefix path k) :=
  rangeVolumes_unique path order.val
    ((order.property.map Prod.fst).nodup_iff.2 hwf) k v
    (order.property.mem_iff.2 hmem) hpre
    (fun kv hkv => huniq kv (order.property.mem_iff.1 hkv))

theorem calculateFilePath_of_none (container : Container)
    (order : RangeOrder container.Volumes) (path : String)
    (h : rangeVolumes path order.val = none) :
    calculateFilePath container order path =
      (if container.Driver = "aufs" then "/var/lib/docker/aufs/mnt/"
        else if container.Driver = "devicemapper" then "/var/lib/docker/devicemapper/mnt/"
        else "/var/lib/docker/btrfs/subvolumes/") ++ container.ID ++
      (if container.Driver = "devicemapper" then "/rootfs" else "") ++ path := by
  have e1 : "/var/lib/docker/" ++ "aufs/mnt" ++ "/" = "/var/lib/docker/aufs/mnt/" := by decide
  have e2 : "/var/lib/docker/" ++ "devicemapper/mnt" ++ "/" =
      "/var/lib/docker/devicemapper/mnt/" := by decide
  have e3 : "/var/lib/docker/" ++ "btrfs/subvolumes" ++ "/" =
      "/var/lib/docker/btrfs/subvolumes/" := by decide
  have hne : ("aufs" : String) ≠ "devicemapper" := by decide
  unfold calculateFilePath
  rw [h]
  by_cases ha : container.Driver = "aufs"
  · simp only [ha, if_true, if_neg hne, e1]
  · by_cases hd : container.Driver = "devicemapper"
    · simp only [hd, if_true, if_neg hne.symm, e2]
    · simp only [if_neg ha, if_neg hd, e3]

/-- C1: volume mounts take precedence in `calculateFilePath`. For every
container (whatever its storage driver), every order in which the volumes are
visited and every path: if exactly one key `k` of the volume mapping is a
prefix of the path and it maps to `v`, the path is `k` followed by some `rest`
and the result is `v` followed by `rest`. -/
theorem calculateFilePath_volume_precedence (container : Container)
    (order : RangeOrder container.Volumes) (path k v : String)
    (hwf : container.Volumes.WF)
    (hmem : (k, v) ∈ container.Volumes.entries)
    (hpre : HasPrefix path k = true)
    (huniq : ∀ kv ∈ container.Volumes.entries, HasPrefix path kv.1 = true → kv.1 = k) :
    ∃ rest : String, path = k ++ rest ∧
      calculateFilePath container order path = v ++ rest := by
  obtain ⟨rest, hrest⟩ := (hasPrefix_iff path k).1 hpre
  refine ⟨rest, hrest, ?_⟩
  have h := rangeVolumes_order_unique container.Volumes order path k v hwf hmem hpre huniq
  unfold calculateFilePath
  rw [h, hrest, trimPrefix_append]

/-- C1 at the volume mapping `"/data" -> "/host/data"` on aufs: `/data/app.log`
resolves to `/host/data/app.log`, which is not the aufs path. -/
theorem calculateFilePath_volume_precedence_witness :
    (∃ rest : String, "/data/app.log" = "/data" ++ rest ∧
      calculateFilePath dataContainer dataOrder "/data/app.log" = "/host/data" ++ rest) ∧
    calculateFilePath dataContainer dataOrder "/data/app.log" = "/host/data/app.log" ∧
    calculateFilePath dataContainer dataOrder "/data/app.log" ≠
      "/var/lib/docker/aufs/mnt/abc123/data/app.log" :=
  ⟨calculateFilePath_volume_precedence dataContainer dataOrder "/data/app.log" "/data"
      "/host/data" (by unfold StringMap.WF; decide) (by decide) (by decide) (by decide),
    by decide, by decide⟩

/-- C2: the storage-driver mapping of `calculateFilePath`. For every container,
every order in which the volumes are visited and every path that no key of the
volume mapping is a prefix of, the result is
`/var/lib/docker/aufs/mnt/<id><path>` for driver `aufs`,
`/var/lib/docker/devicemapper/mnt/<id>/rootfs<path>` for driver `devicemapper`,
and `/var/lib/docker/btrfs/subvolumes/<id><path>` for every other driver; the
function is total, so there is no failing case. -/
theorem calculateFilePath_storage_driver (container : Container)
    (order : RangeOrder container.Volumes) (path : String)
    (hno : ∀ kv ∈ container.Volumes.entries, HasPrefix path kv.1 = false) :
    (container.Driver = "aufs" →
      calculateFilePath container order path =
        "/var/lib/docker/aufs/mnt/" ++ container.ID ++ path) ∧
    (container.Driver = "devicemapper" →
      calculateFilePath container order path =
        "/var/lib/docker/devicemapper/mnt/" ++ container.ID ++ "/rootfs" ++ path) ∧
    (container.Driver ≠ "aufs" → container.Driver ≠ "devicemapper" →
      calculateFilePath container order path =
        "/var/lib/docker/btrfs/subvolumes/" ++ container.ID ++ path) := by
  have h := calculateFilePath_of_none container order path
    (rangeVolumes_order_none container.Volumes order path hno)
  have hne : ("devicemapper" : String) ≠ "aufs" := by decide
  refine ⟨fun ha => ?_, fun hd => ?_, fun ha hd => ?_⟩
  · rw [h, if_pos ha, if_neg (by rw [ha]; exact hne.symm), String.append_empty]
  · rw [h, if_neg (by rw [hd]; exact hne), if_pos hd, if_pos hd]
  · rw [h, if_neg ha, if_neg hd, if_neg hd, String.append_empty]

/-- C2 at driver devicemapper, identifier `xyz`, path `/var/log/app.log`. -/
theorem calculateFilePath_storage_driver_witness :
    (∀ kv ∈ xyzContainer.Volumes.entries, HasPrefix "/var/log/app.log" kv.1 = false) ∧
    calculateFilePath xyzContainer xyzOrder "/var/log/app.log" =
      "/var/lib/docker/devicemapper/mnt/xyz/rootfs/var/log/app.log" :=
  ⟨by decide,
    ((calculateFilePath_storage_driver xyzContainer xyzOrder "/var/log/app.log"
      (by decide)).2.1 rfl).trans (by decide)⟩

theorem rangeVolumes_some (path : String) (l : List (String × String)) (r : String)
    (h : rangeVolumes path l = some r) :
    ∃ kv ∈ l, HasPrefix path kv.1 = true ∧ r = kv.2 ++ TrimPrefix path kv.1 := by
  induction l with
  | nil => simp [rangeVolumes] at h
  | cons kv rest ih =>
    obtain ⟨k, v⟩ := kv
    by_cases hk : HasPrefix path k = true
    · simp only [rangeVolumes, hk, if_true, Option.some.injEq] at h
      exact ⟨(k, v), List.mem_cons_self _ _, hk, h.symm⟩
    · simp only [rangeVolumes, hk] at h
      obtain ⟨kv, hkv, hp, hr⟩ := ih h
      exact ⟨kv, List.mem_cons_of_mem _ hkv, hp, hr⟩

theorem rangeVolumes_none_iff (path : String) (l : List (String × String)) :
    rangeVolumes path l = none ↔ ∀ kv ∈ l, HasPrefix path kv.1 = false := by
  constructor
  · intro h kv hkv
    induction l with
    | nil => simp at hkv
    | cons kv1 rest ih =>
      obtain ⟨k, v⟩ := kv1
      by_cases hk : HasPrefix path k = true
      · simp [rangeVolumes, hk] at h
      · simp only [rangeVolumes, hk] at h
        rcases List.mem_cons.1 hkv with e | e
        · rw [e]
          simpa using hk
        · exact ih h e
  · exact rangeVolumes_none path l

/-- C10 fails on the code: the host path depends on the order in which the
`range` visits the volume mapping. With mounts at `/data` and `/data/logs`,
the path `/data/logs/app.log` resolves to `/host/a/logs/app.log` when `/data`
is visited first and to `/host/b/app.log` when `/data/logs` is; with sibling
mounts at `/data` and `/data2`, the path `/data2/app.log` resolves to
`/host/a2/app.log` or to `/host/b/app.log`. -/
theorem calculateFilePath_order_dependent :
    nestedContainer.Volumes.WF ∧
    calculateFilePath nestedContainer nestedOrderOuter "/data/logs/app.log" =
      "/host/a/logs/app.log" ∧
    calculateFilePath nestedContainer nestedOrderInner "/data/logs/app.log" =
      "/host/b/app.log" ∧
    calculateFilePath nestedContainer nestedOrderOuter "/data/logs/app.log" ≠
      calculateFilePath nestedContainer nestedOrderInner "/data/logs/app.log" ∧
    siblingContainer.Volumes.WF ∧
    calculateFilePath siblingContainer siblingOrderData "/data2/app.log" =
      "/host/a2/app.log" ∧
    calculateFilePath siblingContainer siblingOrderData2 "/data2/app.log" =
      "/host/b/app.log" :=
  ⟨by unfold StringMap.WF; decide, by decide, by decide, by decide,
    by unfold StringMap.WF; decide, by decide, by decide⟩

/-- Order independence of `calculateFilePath`, where it holds: if all the
mounts whose container path is a prefix of the path lead to the same host path
(in particular if at most one mount matches), the result is determined by the
container's identifier, driver and volume mapping (as a finite map) and the
path, whatever the order in which the volumes are visited. -/
theorem calculateFilePath_order_independent (c1 c2 : Container)
    (o1 : RangeOrder c1.Volumes) (o2 : RangeOrder c2.Volumes) (path : String)
    (hid : c1.ID = c2.ID) (hdriver : c1.Driver = c2.Driver)
    (hmap : c1.Volumes.entries.Perm c2.Volumes.entries)
    (hagree : ∀ kv1 ∈ c1.Volumes.entries, ∀ kv2 ∈ c1.Volumes.entries,
      HasPrefix path kv1.1 = true → HasPrefix path kv2.1 = true →
      kv1.2 ++ TrimPrefix path kv1.1 = kv2.2 ++ TrimPrefix path kv2.1) :
    calculateFilePath c1 o1 path = calculateFilePath c2 o2 path := by
  cases h1 : rangeVolumes path o1.val with
  | none =>
    have hno1 : ∀ kv ∈ c1.Volumes.entries, HasPrefix path kv.1 = false :=
      fun kv h => (rangeVolumes_none_iff path o1.val).1 h1 kv (o1.property.mem_iff.2 h)
    have hno2 : ∀ kv ∈ c2.Volumes.entries, HasPrefix path kv.1 = false :=
      fun kv h => hno1 kv (hmap.mem_iff.2 h)
    rw [calculateFilePath_of_none c1 o1 path h1,
      calculateFilePath_of_none c2 o2 path (rangeVolumes_order_none _ o2 path hno2),
      hid, hdriver]
  | some r1 =>
    obtain ⟨kv1, hkv1, hp1, hr1⟩ := rangeVolumes_some path o1.val r1 h1
    cases h2 : rangeVolumes path o2.val with
    | none =>
      have hno := (rangeVolumes_none_iff path o2.val).1 h2 kv1
        (o2.property.mem_iff.2 (hmap.mem_iff.1 (o1.property.mem_iff.1 hkv1)))
      rw [hp1] at hno
      cases hno
    | some r2 =>
      obtain ⟨kv2, hkv2, hp2, hr2⟩ := rangeVolumes_some path o2.val r2 h2
      have he := hagree kv1 (o1.property.mem_iff.1 hkv1) kv2
        (hmap.mem_iff.2 (o2.property.mem_iff.1 hkv2)) hp1 hp2
      unfold calculateFilePath
      rw [h1, h2, hr1, hr2, he]

/-- Order independence at nested mounts whose host paths are nested the same
way: `/data/logs/app.log` resolves to `/host/data/logs/app.log` in either
order. -/
theorem calculateFilePath_order_independent_witness :
    calculateFilePath agreeingContainer agreeingOrderOuter "/data/logs/app.log" =
      calculateFilePath agreeingContainer agreeingOrderInner "/data/logs/app.log" ∧
    calculateFilePath agreeingContainer agreeingOrderInner "/data/logs/app.log" =
      "/host/data/logs/app.log" :=
  ⟨calculateFilePath_order_independent agreeingContainer agreeingContainer
      agreeingOrderOuter agreeingOrderInner "/data/logs/app.log" rfl rfl (List.Perm.refl _)
      (by decide),
    by decide⟩

/-! ## Building configurations -/

/-- C3: `AddContainerLogFile` appends exactly one File Source and changes
nothing else. For every configuration and container, the Files after the call
are the Files before it, in the same order, followed by one File whose Paths is
the single path `/var/lib/docker/containers/<id>/<id>-json.log` and whose
Fields is the map with exactly the six entries `type`, `codec`, `docker.id`,
`docker.hostname`, `docker.name`, `docker.image` (pairwise distinct keys, each
looked up to its value); the Network section is unchanged; and a second call
with the same container appends a second, equal File, without deduplication. -/
theorem AddContainerLogFile_appends (config : LogstashForwarderConfig)
    (container : Container) :
    (AddContainerLogFile config container).Files =
      .mk (config.Files.toList ++
        [{ Paths := .mk ["/var/lib/docker/containers/" ++ container.ID ++ "/" ++
              container.ID ++ "-json.log"]
           Fields := ⟨[("type", "docker"), ("codec", "json"), ("docker.id", container.ID),
              ("docker.hostname", container.Config.Hostname),
              ("docker.name", container.Name),
              ("docker.image", container.Config.Image)]⟩ }]) ∧
    (∀ file, (AddContainerLogFile config container).Files.toList.getLast? = some file →
      file.Fields.WF ∧ file.Fields.entries.length = 6 ∧
      file.Fields.get "type" = "docker" ∧ file.Fields.get "codec" = "json" ∧
      file.Fields.get "docker.id" = container.ID ∧
      file.Fields.get "docker.hostname" = container.Config.Hostname ∧
      file.Fields.get "docker.name" = container.Name ∧
      file.Fields.get "docker.image" = container.Config.Image) ∧
    (AddContainerLogFile config container).Network = config.Network ∧
    (AddContainerLogFile (AddContainerLogFile config container) container).Files =
      .mk (config.Files.toList ++
        [{ Paths := .mk ["/var/lib/docker/containers/" ++ container.ID ++ "/" ++
              container.ID ++ "-json.log"]
           Fields := ⟨[("type", "docker"), ("codec", "json"), ("docker.id", container.ID),
              ("docker.hostname", container.Config.Hostname),
              ("docker.name", container.Name),
              ("docker.image", container.Config.Image)]⟩ },
         { Paths := .mk ["/var/lib/docker/containers/" ++ container.ID ++ "/" ++
              container.ID ++ "-json.log"]
           Fields := ⟨[("type", "docker"), ("codec", "json"), ("docker.id", container.ID),
              ("docker.hostname", container.Config.Hostname),
              ("docker.name", container.Name),
              ("docker.image", container.Config.Image)]⟩ }]) := by
  have hfiles : ∀ c : LogstashForwarderConfig, (AddContainerLogFile c container).Files =
      .mk (c.Files.toList ++
        [{ Paths := .mk ["/var/lib/docker/containers/" ++ container.ID ++ "/" ++
              container.ID ++ "-json.log"]
           Fields := ⟨[("type", "docker"), ("codec", "json"), ("docker.id", container.ID),
              ("docker.hostname", container.Config.Hostname),
              ("docker.name", container.Name),
              ("docker.image", container.Config.Image)]⟩ }]) := by
    intro c
    simp [AddContainerLogFile, StringMap.set, StringMap.empty, Slice.append]
  refine ⟨hfiles config, ?_, rfl, ?_⟩
  · intro file hfile
    rw [hfiles config] at hfile
    change (config.Files.toList ++ [_]).getLast? = some file at hfile
    rw [List.getLast?_concat, Option.some.injEq] at hfile
    subst hfile
    refine ⟨?_, rfl, ?_⟩
    · show (["type", "codec", "docker.id", "docker.hostname", "docker.name",
        "docker.image"] : List String).Nodup
      decide
    · simp [StringMap.get]
  · rw [hfiles, hfiles]
    simp [Slice.toList]

/-- C3 at the container `abc123` and the empty default configuration: one File
Source, with the path of the container's JSON log and `docker.id` = `abc123`. -/
theorem AddContainerLogFile_appends_witness :
    (AddContainerLogFile (NewFromDefault "logstash:5043") dataContainer).Files =
      .mk [{ Paths := .mk ["/var/lib/docker/containers/abc123/abc123-json.log"]
             Fields := ⟨[("type", "docker"), ("codec", "json"), ("docker.id", "abc123"),
                ("docker.hostname", "web-1"), ("docker.name", "/web"),
                ("docker.image", "nginx")]⟩ }] :=
  (AddContainerLogFile_appends (NewFromDefault "logstash:5043") dataContainer).1.trans
    (by decide)

/-- C8: `NewFromDefault` builds the default configuration. For every endpoint
`e` the Network section has Servers `[e]`, the fixed certificate, key and CA
paths and Timeout 15, and Files is the allocated, empty (not nil) slice. -/
theorem NewFromDefault_value (e : String) :
    (NewFromDefault e).Network.Servers = .mk [e] ∧
    (NewFromDefault e).Network.SslCertificate =
      "/mnt/logstash-forwarder/logstash-forwarder.crt" ∧
    (NewFromDefault e).Network.SslKey = "/mnt/logstash-forwarder/logstash-forwarder.key" ∧
    (NewFromDefault e).Network.SslCa = "/mnt/logstash-forwarder/logstash-forwarder.crt" ∧
    (NewFromDefault e).Network.Timeout = 15 ∧
    (NewFromDefault e).Files.toList = [] ∧
    (NewFromDefault e).Files.isNil = false :=
  ⟨rfl, rfl, rfl, rfl, rfl, rfl, rfl⟩

/-! ## Override configurations -/

theorem rewritePaths_getElem? (container : Container)
    (orders : Nat → RangeOrder container.Volumes) (l : List String) (n j : Nat) :
    (rewritePaths container orders n l)[j]? =
      (l[j]?).map (calculateFilePath container (orders (n + j))) := by
  induction l generalizing n j with
  | nil => simp [rewritePaths]
  | cons p rest ih =>
    cases j with
    | zero => simp [rewritePaths]
    | succ j =>
      simp only [rewritePaths, List.getElem?_cons_succ]
      rw [ih (n + 1) j, Nat.add_assoc, Nat.add_comm 1 j]

theorem rewritePaths_length (container : Container)
    (orders : Nat → RangeOrder container.Volumes) (l : List String) (n : Nat) :
    (rewritePaths container orders n l).length = l.length := by
  induction l generalizing n with
  | nil => rfl
  | cons p rest ih => simp [rewritePaths, ih]

theorem rewriteFiles_length (container : Container)
    (orders : Nat → RangeOrder container.Volumes) (l : List File) (n : Nat) :
    (rewriteFiles container orders n l).length = l.length := by
  induction l generalizing n with
  | nil => rfl
  | cons f rest ih => simp [rewriteFiles, ih]

theorem rewriteFiles_getElem? (container : Container)
    (orders : Nat → RangeOrder container.Volumes) (l : List File) (n i : Nat) :
    (rewriteFiles container orders n l)[i]? =
      (l[i]?).map (fun file =>
        { file with
          Paths := file.Paths.mapElems
            (rewritePaths container orders
              (n + ((l.take i).map (fun f => f.Paths.len)).sum)) }) := by
  induction l generalizing n i with
  | nil => simp [rewriteFiles]
  | cons f rest ih =>
    cases i with
    | zero => simp [rewriteFiles]
    | succ i =>
      simp only [rewriteFiles, List.getElem?_cons_succ, List.take_succ_cons, List.map_cons,
        List.sum_cons]
      rw [ih (n + f.Paths.len) i, Nat.add_assoc]

theorem rangePaths_eq (container : Container)
    (orders : Nat → RangeOrder container.Volumes) (array : Nat) (suf pre : List String)
    (n : Nat) (heap : Heap) (h : heap array = pre ++ suf) :
    rangePaths container orders array pre.length suf.length n heap =
      fun b => if b = array then pre ++ rewritePaths container orders n suf else heap b := by
  induction suf generalizing pre n heap with
  | nil =>
    funext b
    by_cases hb : b = array
    · simp [rangePaths, rewritePaths, hb, h]
    · simp [rangePaths, hb]
  | cons p rest ih =>
    have hget : (heap array).getD pre.length "" = p := by
      rw [h, List.getD_eq_getElem?_getD, List.getElem?_append_right (Nat.le_refl _)]
      simp
    have h1 : (heap.store array pre.length (calculateFilePath container (orders n) p)) array =
        (pre ++ [calculateFilePath container (orders n) p]) ++ rest := by
      simp [Heap.store, h]
    have hstep := ih (pre ++ [calculateFilePath container (orders n) p]) (n + 1)
      (heap.store array pre.length (calculateFilePath container (orders n) p)) h1
    rw [List.length_append, List.length_singleton] at hstep
    simp only [List.length_cons, rangePaths, hget, hstep]
    funext b
    by_cases hb : b = array
    · simp [hb, rewritePaths]
    · simp [hb, Heap.store]

theorem rangePaths_whole (container : Container)
    (orders : Nat → RangeOrder container.Volumes) (array n : Nat) (l : List String)
    (heap : Heap) (h : heap array = l) :
    rangePaths container orders array 0 l.length n heap =
      fun b => if b = array then rewritePaths container orders n l else heap b := by
  have hs := rangePaths_eq container orders array l [] n heap (by simpa using h)
  simpa using hs

theorem rangeFiles_read (container : Container)
    (orders : Nat → RangeOrder container.Volumes) (files : List File) (a n : Nat)
    (heap : Heap)
    (hheap : ∀ (k : Nat) (file : File), files[k]? = some file →
      heap (a + k) = file.Paths.toList) :
    (∀ b, b < a →
      rangeFiles container orders n (layoutFiles a files) heap b = heap b) ∧
    (layoutFiles a files).map
        (readFile (rangeFiles container orders n (layoutFiles a files) heap)) =
      rewriteFiles container orders n files := by
  induction files generalizing a n heap with
  | nil => exact ⟨fun _ _ => rfl, rfl⟩
  | cons f rest ih =>
    have hrest : ∀ (heap1 : Heap), (∀ b, b ≠ a → heap1 b = heap b) →
        ∀ (k : Nat) (file : File), rest[k]? = some file →
          heap1 (a + 1 + k) = file.Paths.toList := by
      intro heap1 hsame k file hk
      rw [hsame _ (by omega), Nat.add_assoc, Nat.add_comm 1 k]
      exact hheap (k + 1) file (by simpa using hk)
    cases hP : f.Paths with
    | nil =>
      obtain ⟨ih1, ih2⟩ := ih (a + 1) n heap (hrest heap (fun _ _ => rfl))
      simp only [layoutFiles, hP, rangeFiles, List.map_cons, rewriteFiles]
      refine ⟨fun b hb => ih1 b (by omega), ?_⟩
      simp only [Slice.len, Slice.toList, List.length_nil, Nat.add_zero] at ih2 ⊢
      rw [ih2]
      simp [readFile, readPaths, Slice.mapElems, hP]
    | mk l =>
      have ha : heap a = l := by
        have h0 := hheap 0 f (by simp)
        simpa [hP, Slice.toList] using h0
      have hinner := rangePaths_whole container orders a n l heap ha
      obtain ⟨ih1, ih2⟩ := ih (a + 1) (n + l.length)
        (rangePaths container orders a 0 l.length n heap)
        (hrest _ (fun b hb => by rw [hinner]; simp [hb]))
      simp only [layoutFiles, hP, rangeFiles, List.map_cons, rewriteFiles]
      refine ⟨fun b hb => ?_, ?_⟩
      · rw [ih1 b (by omega), hinner]
        simp [Nat.ne_of_lt hb]
      · simp only [Slice.len, Slice.toList] at ih2 ⊢
        rw [ih2]
        have hpaths : rangeFiles container orders (n + l.length) (layoutFiles (a + 1) rest)
            (rangePaths container orders a 0 l.length n heap) a =
            rewritePaths container orders n l := by
          rw [ih1 a (by omega), hinner]
          simp
        simp [readFile, readPaths, Slice.mapElems, hP, hpaths, rewritePaths_length]

theorem loops_read (container : Container)
    (orders : Nat → RangeOrder container.Volumes) (files : Slice File) :
    (files.mapElems (layoutFiles 0)).mapElems
        (List.map (readFile (rangeFiles container orders 1
          (files.mapElems (layoutFiles 0)).toList (decodedHeap files.toList)))) =
      files.mapElems (rewriteFiles container orders 1) := by
  cases files with
  | nil => rfl
  | mk l =>
    have h := (rangeFiles_read container orders l 0 1 (decodedHeap l)
      (fun k file hk => by simp [decodedHeap, hk])).2
    simp only [Slice.mapElems, Slice.toList]
    rw [h]

theorem mapElems_rewritePaths (container : Container)
    (orders : Nat → RangeOrder container.Volumes) (paths : Slice String) (n : Nat) :
    (paths.mapElems (rewritePaths container orders n)).isNil = paths.isNil ∧
    (paths.mapElems (rewritePaths container orders n)).len = paths.len ∧
    ∀ j : Nat, (paths.mapElems (rewritePaths container orders n)).toList[j]? =
      (paths.toList[j]?).map (calculateFilePath container (orders (n + j))) := by
  cases paths with
  | nil => exact ⟨rfl, rfl, fun j => by simp [Slice.mapElems, Slice.toList]⟩
  | mk l =>
    exact ⟨rfl, rewritePaths_length container orders l n,
      fun j => rewritePaths_getElem? container orders l n j⟩

/-- C4: path rewriting in `NewFromContainer`. For every container and every
configuration `c` that `NewFromFile` loads from the container's override file,
`NewFromContainer` returns a configuration with the Network section of `c` and
as many File Sources, in the same order; each has the Fields it has in `c`, and
its Paths has the same length and order, every path `p` replaced by the result
of the call `calculateFilePath(container, p)` made for it. The loop works on
copies of the File structures, whose slice headers refer to the backing arrays
of the originals; the configuration returned is read from the untouched
originals against the memory the loop has written, and holds the rewritten
paths. -/
theorem NewFromContainer_rewrites_paths (fs : String → FileState) (container : Container)
    (orders : Nat → RangeOrder container.Volumes) (c : LogstashForwarderConfig)
    (hload : NewFromFile fs
      (calculateFilePath container (orders 0) "/etc/logstash-forwarder.conf") =
        (some c, none)) :
    ∃ r : LogstashForwarderConfig,
      NewFromContainer fs container orders = .returned (some r, none) ∧
      r.Network = c.Network ∧
      r.Files.isNil = c.Files.isNil ∧
      r.Files.len = c.Files.len ∧
      ∀ (i : Nat) (file : File), c.Files.toList[i]? = some file →
        ∃ file1 : File, r.Files.toList[i]? = some file1 ∧
          file1.Fields = file.Fields ∧
          file1.Paths.isNil = file.Paths.isNil ∧
          file1.Paths.len = file.Paths.len ∧
          ∀ (j : Nat) (p : String), file.Paths.toList[j]? = some p →
            file1.Paths.toList[j]? =
              some (calculateFilePath container
                (orders (1 + ((c.Files.toList.take i).map (fun f => f.Paths.len)).sum + j))
                p) := by
  refine ⟨{ c with Files := c.Files.mapElems (rewriteFiles container orders 1) }, ?_, rfl,
    ?_, ?_, ?_⟩
  · simp only [NewFromContainer, hload, loops_read]
  · cases c.Files <;> rfl
  · cases hF : c.Files with
    | nil => rfl
    | mk l => exact rewriteFiles_length container orders l 1
  · intro i file hfile
    have hget : (c.Files.mapElems (rewriteFiles container orders 1)).toList[i]? =
        (c.Files.toList[i]?).map (fun file =>
          { file with
            Paths := file.Paths.mapElems
              (rewritePaths container orders
                (1 + ((c.Files.toList.take i).map (fun f => f.Paths.len)).sum)) }) := by
      cases c.Files with
      | nil => simp [Slice.mapElems, Slice.toList]
      | mk l => exact rewriteFiles_getElem? container orders l 1 i
    obtain ⟨hnil, hlen, hpaths⟩ := mapElems_rewritePaths container orders file.Paths
      (1 + ((c.Files.toList.take i).map (fun f => f.Paths.len)).sum)
    have h1 : (c.Files.mapElems (rewriteFiles container orders 1)).toList[i]? =
        some { file with
          Paths := file.Paths.mapElems
            (rewritePaths container orders
              (1 + ((c.Files.toList.take i).map (fun f => f.Paths.len)).sum)) } := by
      rw [hget, hfile]
      rfl
    refine ⟨_, h1, rfl, hnil, hlen, ?_⟩
    intro j p hp
    have h2 := hpaths j
    rw [hp] at h2
    exact h2

/-- C4 at `overrideFs`: the override file loads, and in the configuration
returned both of its paths are rewritten and nothing else differs. -/
theorem NewFromContainer_rewrites_paths_witness :
    NewFromFile overrideFs
      (calculateFilePath dataContainer dataOrder "/etc/logstash-forwarder.conf") =
      (some overrideConfig, none) ∧
    (∃ r : LogstashForwarderConfig,
      NewFromContainer overrideFs dataContainer (fun _ => dataOrder) =
        .returned (some r, none) ∧
      r.Network = overrideConfig.Network ∧
      r.Files.isNil = overrideConfig.Files.isNil ∧
      r.Files.len = overrideConfig.Files.len) ∧
    NewFromContainer overrideFs dataContainer (fun _ => dataOrder) =
      .returned (some
        { Network := { Servers := .mk ["logstash:5043"], SslCertificate := "/crt",
                       SslKey := "/key", SslCa := "/ca", Timeout := 15 }
          Files := .mk [{ Paths := .mk ["/host/data/app.log",
                            "/var/lib/docker/aufs/mnt/abc123/var/log/nginx.log"]
                          Fields := ⟨[("type", "nginx")]⟩ }] }, none) :=
  ⟨by decide,
    (NewFromContainer_rewrites_paths overrideFs dataContainer (fun _ => dataOrder)
      overrideConfig (by decide)).imp (fun _ h => ⟨h.1, h.2.1, h.2.2.1, h.2.2.2.1⟩),
    by decide⟩

/-- C9 fails on the code: when the override file holds the JSON literal
`null`, `NewFromFile` returns a nil configuration together with a nil error,
and `NewFromContainer` then reads `config.Files` through the nil pointer and
panics instead of returning. -/
theorem NewFromContainer_null_panics :
    NewFromFile nullFs
      (calculateFilePath dataContainer dataOrder "/etc/logstash-forwarder.conf") =
      (none, none) ∧
    NewFromContainer nullFs dataContainer (fun _ => dataOrder) = .panicked :=
  ⟨by decide, by decide⟩

/-- Outside the `null` document `NewFromContainer` returns, with exactly one
of a configuration and an error; on the `null` document it panics. -/
theorem NewFromContainer_outcomes (fs : String → FileState) (container : Container)
    (orders : Nat → RangeOrder container.Volumes) :
    (fs (calculateFilePath container (orders 0) "/etc/logstash-forwarder.conf") =
        .content .null ∧
      NewFromContainer fs container orders = .panicked) ∨
    (∃ err : Error, NewFromContainer fs container orders = .returned (none, some err)) ∨
    (∃ r : LogstashForwarderConfig,
      NewFromContainer fs container orders = .returned (some r, none)) := by
  cases hfs : fs (calculateFilePath container (orders 0) "/etc/logstash-forwarder.conf") with
  | openFails err =>
    exact Or.inr (Or.inl ⟨err, by simp only [NewFromContainer, NewFromFile, hfs]⟩)
  | content doc =>
    cases doc with
    | undecodable err =>
      exact Or.inr (Or.inl ⟨err, by simp only [NewFromContainer, NewFromFile, hfs, Decode]⟩)
    | null =>
      exact Or.inl ⟨rfl, by simp only [NewFromContainer, NewFromFile, hfs, Decode]⟩
    | object c =>
      exact Or.inr (Or.inr
        ⟨{ c with Files := c.Files.mapElems (rewriteFiles container orders 1) },
          by simp only [NewFromContainer, NewFromFile, hfs, Decode, loops_read]⟩)

/-! ## The refresh debouncer -/

theorem quietPeriod_exact (laziness : Int) (hlo : -9223372036 ≤ laziness)
    (hhi : laziness ≤ 9223372036) : quietPeriod laziness = laziness * 1000000000 := by
  show ((laziness * 1000000000 + 2 ^ 63) % 2 ^ 64 - 2 ^ 63 : Int) = laziness * 1000000000
  omega

theorem qualifies_iff (event : APIEvents) :
    qualifies event = true ↔
      event.Status = "start" ∨ event.Status = "stop" ∨ event.Status = "die" := by
  simp [qualifies, or_assoc]

theorem iter_idle (laziness : Int) (s : State) (event : APIEvents)
    (hq : qualifies event = true) (hid : 12 ≤ event.ID.utf8ByteSize)
    (hidle : s.refresh.isTriggered = false) :
    listenToDockerEventsIter laziness s (some event) =
      .returned
        { refresh := { isTriggered := true, timer := some { d := quietPeriod laziness } }
          outstanding := s.outstanding ++ [{ d := quietPeriod laziness }]
          regenerating := s.regenerating } := by
  simp [listenToDockerEventsIter, hq, Nat.not_lt.2 hid, hidle]

theorem iter_pending (laziness : Int) (s : State) (event : APIEvents)
    (hid : 12 ≤ event.ID.utf8ByteSize) (hpending : s.refresh.isTriggered = true) :
    listenToDockerEventsIter laziness s (some event) = .returned s := by
  simp [listenToDockerEventsIter, Nat.not_lt.2 hid, hpending]

theorem iter_short_id (laziness : Int) (s : State) (event : APIEvents)
    (hq : qualifies event = true) (hid : event.ID.utf8ByteSize < 12) :
    listenToDockerEventsIter laziness s (some event) = .panicked := by
  simp [listenToDockerEventsIter, hq, hid]

theorem iter_ignored (laziness : Int) (s : State) (event : APIEvents)
    (hq : qualifies event = false) :
    listenToDockerEventsIter laziness s (some event) = .returned s := by
  simp [listenToDockerEventsIter, hq]

theorem listen_pending (laziness : Int) (s : State) (events : List APIEvents)
    (hid : ∀ e ∈ events, 12 ≤ e.ID.utf8ByteSize) (hpending : s.refresh.isTriggered = true) :
    listenToDockerEvents laziness s (events.map some) = .returned s := by
  induction events with
  | nil => rfl
  | cons e rest ih =>
    simp only [List.map_cons, listenToDockerEvents,
      iter_pending laziness s e (hid e (List.mem_cons_self _ _)) hpending]
    exact ih (fun e1 h1 => hid e1 (List.mem_cons_of_mem _ h1))

theorem exec_flagCounts (laziness : Int) (s s1 : State) (a : Action)
    (hs : FlagCounts s) (hexec : exec laziness s a = some s1) : FlagCounts s1 := by
  unfold FlagCounts at hs ⊢
  cases a with
  | receive event =>
    cases event with
    | none =>
      simp only [exec, listenToDockerEventsIter, Option.some.injEq] at hexec
      rw [← hexec]
      exact hs
    | some e =>
      by_cases hq : qualifies e = true
      · by_cases hid : e.ID.utf8ByteSize < 12
        · simp [exec, iter_short_id laziness s e hq hid] at hexec
        · cases hflag : s.refresh.isTriggered with
          | false =>
            simp only [exec, iter_idle laziness s e hq (Nat.not_lt.1 hid) hflag,
              Option.some.injEq] at hexec
            rw [← hexec]
            simp [hflag] at hs
            simp [hs]
          | true =>
            simp only [exec, iter_pending laziness s e (Nat.not_lt.1 hid) hflag,
              Option.some.injEq] at hexec
            rw [← hexec]
            exact hs
      · simp only [exec, iter_ignored laziness s e (by simpa using hq),
          Option.some.injEq] at hexec
        rw [← hexec]
        exact hs
  | fire i =>
    by_cases hi : i < s.outstanding.length
    · simp only [exec, if_pos hi, Option.some.injEq] at hexec
      rw [← hexec]
      have hlen : s.outstanding.length = 1 := by
        split at hs
        · exact hs
        · omega
      have hi0 : i = 0 := by omega
      simp [triggerRefresh, List.length_eraseIdx, hlen, hi0]
    · simp [exec, hi] at hexec
  | complete =>
    by_cases hr : 0 < s.regenerating
    · simp only [exec, if_pos hr, Option.some.injEq] at hexec
      rw [← hexec]
      exact hs
    · simp [exec, hr] at hexec

theorem run_flagCounts (laziness : Int) (acts : List Action) (s s1 : State)
    (hs : FlagCounts s) (hrun : run laziness s acts = some s1) : FlagCounts s1 := by
  induction acts generalizing s with
  | nil =>
    simp only [run, Option.some.injEq] at hrun
    rw [← hrun]
    exact hs
  | cons a rest ih =>
    simp only [run] at hrun
    cases hexec : exec laziness s a with
    | none => simp [hexec] at hrun
    | some s2 =>
      rw [hexec] at hrun
      exact ih s2 (exec_flagCounts laziness s s2 a hs hexec) hrun

theorem reachable_flagCounts (laziness : Int) (s : State) (h : Reachable laziness s) :
    FlagCounts s := by
  obtain ⟨acts, hrun⟩ := h
  exact run_flagCounts laziness acts State.init s (by simp [FlagCounts, State.init]) hrun

theorem iterCalls_idle (laziness : Int) (s : State) (event : APIEvents)
    (hq : qualifies event = true) (hid : 12 ≤ event.ID.utf8ByteSize)
    (hidle : s.refresh.isTriggered = false) :
    listenToDockerEventsIterCalls laziness s (some event) =
      .returned
        ({ refresh := { isTriggered := true, timer := some { d := quietPeriod laziness } }
           outstanding := s.outstanding ++ [{ d := quietPeriod laziness }]
           regenerating := s.regenerating },
          [.afterFunc (quietPeriod laziness)]) := by
  simp [listenToDockerEventsIterCalls, hq, Nat.not_lt.2 hid, hidle]

theorem iterCalls_pending (laziness : Int) (s : State) (event : APIEvents)
    (hid : 12 ≤ event.ID.utf8ByteSize) (hpending : s.refresh.isTriggered = true) :
    listenToDockerEventsIterCalls laziness s (some event) = .returned (s, []) := by
  simp [listenToDockerEventsIterCalls, Nat.not_lt.2 hid, hpending]

theorem listenCalls_pending (laziness : Int) (s : State) (calls : List TimerCall)
    (events : List APIEvents)
    (hid : ∀ e ∈ events, 12 ≤ e.ID.utf8ByteSize) (hpending : s.refresh.isTriggered = true) :
    listenToDockerEventsCalls laziness s calls (events.map some) = .returned (s, calls) := by
  induction events with
  | nil => rfl
  | cons e rest ih =>
    simp only [List.map_cons, listenToDockerEventsCalls,
      iterCalls_pending laziness s e (hid e (List.mem_cons_self _ _)) hpending,
      List.append_nil]
    exact ih (fun e1 h1 => hid e1 (List.mem_cons_of_mem _ h1))

/-- The state part of `listenToDockerEventsIterCalls` is
`listenToDockerEventsIter`. -/
theorem iterCalls_state (laziness : Int) (s : State) (event : Option APIEvents) :
    listenToDockerEventsIter laziness s event =
      match listenToDockerEventsIterCalls laziness s event with
      | .returned (s1, _) => .returned s1
      | .panicked => .panicked := by
  cases event with
  | none => rfl
  | some e =>
    simp only [listenToDockerEventsIter, listenToDockerEventsIterCalls]
    split_ifs <;> rfl

/-- C5 fails on the code: with `-lazyness 9223372037` and one `start` event
carrying a full container identifier, received while idle, the deferred trigger
is created with delay `time.Duration(laziness)*time.Second`, which has wrapped
around to -9223372036709551616 ns: a negative delay, not the configured quiet
period of 9223372037 seconds. -/
theorem listenToDockerEvents_delay_wraps :
    State.init.refresh.isTriggered = false ∧
    qualifies startEvent = true ∧
    12 ≤ startEvent.ID.utf8ByteSize ∧
    listenToDockerEvents 9223372037 State.init [some startEvent] =
      .returned
        { refresh := { isTriggered := true, timer := some { d := -9223372036709551616 } }
          outstanding := [{ d := -9223372036709551616 }]
          regenerating := 0 } ∧
    quietPeriod 9223372037 ≠ 9223372037 * 1000000000 ∧
    quietPeriod 9223372037 < 0 :=
  ⟨rfl, by decide, by decide, by decide, by decide, by decide⟩

/-- Debounce burst coalescing, where it holds. From any state with the flag
clear, a burst of one or more qualifying events whose identifiers have at least
12 bytes, with no timer firing in between, makes exactly one call on timers:
the `time.AfterFunc` of the first event, with delay
`time.Duration(laziness)*time.Second` (which is `laziness` seconds whenever
`laziness` is between -9223372036 and 9223372036). That event stores the handle
and sets the flag; each later event of the burst makes no call on timers (no
`AfterFunc`, `Stop` or `Reset`) and leaves the state as it is, so the whole
burst ends in the state the first event produced. In every reachable state the
number of outstanding deferred triggers is 1 if the flag is set and 0
otherwise. -/
theorem listenToDockerEvents_coalesces (laziness : Int) (s : State) (first : APIEvents)
    (more : List APIEvents)
    (hidle : s.refresh.isTriggered = false)
    (hq : ∀ e ∈ first :: more, qualifies e = true ∧ 12 ≤ e.ID.utf8ByteSize) :
    listenToDockerEventsIterCalls laziness s (some first) =
      .returned
        ({ refresh := { isTriggered := true, timer := some { d := quietPeriod laziness } }
           outstanding := s.outstanding ++ [{ d := quietPeriod laziness }]
           regenerating := s.regenerating },
          [.afterFunc (quietPeriod laziness)]) ∧
    (-9223372036 ≤ laziness ∧ laziness ≤ 9223372036 →
      quietPeriod laziness = laziness * 1000000000) ∧
    (∀ e ∈ more,
      listenToDockerEventsIterCalls laziness
        { refresh := { isTriggered := true, timer := some { d := quietPeriod laziness } }
          outstanding := s.outstanding ++ [{ d := quietPeriod laziness }]
          regenerating := s.regenerating } (some e) =
      .returned
        ({ refresh := { isTriggered := true, timer := some { d := quietPeriod laziness } }
           outstanding := s.outstanding ++ [{ d := quietPeriod laziness }]
           regenerating := s.regenerating }, [])) ∧
    listenToDockerEventsCalls laziness s [] ((first :: more).map some) =
      .returned
        ({ refresh := { isTriggered := true, timer := some { d := quietPeriod laziness } }
           outstanding := s.outstanding ++ [{ d := quietPeriod laziness }]
           regenerating := s.regenerating },
          [.afterFunc (quietPeriod laziness)]) ∧
    listenToDockerEvents laziness s ((first :: more).map some) =
      .returned
        { refresh := { isTriggered := true, timer := some { d := quietPeriod laziness } }
          outstanding := s.outstanding ++ [{ d := quietPeriod laziness }]
          regenerating := s.regenerating } ∧
    (∀ t : State, Reachable laziness t →
      t.outstanding.length = if t.refresh.isTriggered = true then 1 else 0) := by
  have hfirst := hq first (List.mem_cons_self _ _)
  have hmore : ∀ e ∈ more, 12 ≤ e.ID.utf8ByteSize :=
    fun e he => (hq e (List.mem_cons_of_mem _ he)).2
  have h1 := iter_idle laziness s first hfirst.1 hfirst.2 hidle
  have c1 := iterCalls_idle laziness s first hfirst.1 hfirst.2 hidle
  refine ⟨c1, fun h => quietPeriod_exact laziness h.1 h.2, ?_, ?_, ?_,
    fun t ht => reachable_flagCounts laziness t ht⟩
  · intro e he
    exact iterCalls_pending laziness _ e (hmore e he) rfl
  · simp only [List.map_cons, listenToDockerEventsCalls, c1, List.nil_append]
    exact listenCalls_pending laziness _ _ more hmore rfl
  · simp only [List.map_cons, listenToDockerEvents, h1]
    exact listen_pending laziness _ more hmore rfl

/-- Coalescing at a burst of three `start`, `die`, `stop` events with full
identifiers and a laziness of 5 seconds: one `AfterFunc` call, of 5000000000
ns. -/
theorem listenToDockerEvents_coalesces_witness :
    listenToDockerEventsCalls 5 State.init []
      [some startEvent, some { startEvent with Status := "die" },
        some { startEvent with Status := "stop" }] =
      .returned
        ({ refresh := { isTriggered := true, timer := some { d := 5000000000 } }
           outstanding := [{ d := 5000000000 }]
           regenerating := 0 },
          [.afterFunc 5000000000]) :=
  (listenToDockerEvents_coalesces 5 State.init startEvent
    [{ startEvent with Status := "die" }, { startEvent with Status := "stop" }]
    rfl (by decide)).2.2.2.1

/-- C7: non-qualifying events are ignored by the debouncer. For every state and
every received value that is nil or an event whose status is none of `start`,
`stop`, `die`, one iteration of the loop of `listenToDockerEvents` returns with
the state unchanged: the flag, the timer handle and the outstanding deferred
triggers are as before, so the flag is never set by such an event. -/
theorem listenToDockerEvents_ignores_others (laziness : Int) (s : State)
    (event : Option APIEvents)
    (hnot : ∀ e, event = some e → e.Status ≠ "start" ∧ e.Status ≠ "stop" ∧ e.Status ≠ "die") :
    listenToDockerEventsIter laziness s event = .returned s ∧
    listenToDockerEvents laziness s [event] = .returned s := by
  have h : listenToDockerEventsIter laziness s event = .returned s := by
    cases event with
    | none => rfl
    | some e =>
      have hne := hnot e rfl
      have hq : qualifies e = false := by
        cases hqe : qualifies e
        · rfl
        · rcases (qualifies_iff e).1 hqe with h1 | h1 | h1
          · exact absurd h1 hne.1
          · exact absurd h1 hne.2.1
          · exact absurd h1 hne.2.2
      exact iter_ignored laziness s e hq
  refine ⟨h, ?_⟩
  simp only [listenToDockerEvents, h]

/-- C7 at a `create` event (with a short identifier) and at the nil event,
received while idle. -/
theorem listenToDockerEvents_ignores_others_witness :
    (listenToDockerEventsIter 5 State.init (some { Status := "create", ID := "abc" }) =
      .returned State.init) ∧
    (listenToDockerEventsIter 5 State.init none = .returned State.init) :=
  ⟨(listenToDockerEvents_ignores_others 5 State.init
      (some { Status := "create", ID := "abc" })
      (fun e he => by
        rw [← Option.some.inj he]
        exact ⟨by decide, by decide, by decide⟩)).1,
    (listenToDockerEvents_ignores_others 5 State.init none
      (fun e he => by cases he)).1⟩

/-- C6 as stated fails: after an event, the firing of its timer and another
event, one deferred trigger is outstanding while one regeneration is in
progress; when that second timer fires as well, two regenerations are in
progress at once. -/
theorem single_flight_fails :
    run 5 State.init [.receive (some startEvent), .fire 0, .receive (some startEvent)] =
      some { refresh := { isTriggered := true, timer := some { d := 5000000000 } }
             outstanding := [{ d := 5000000000 }]
             regenerating := 1 } ∧
    run 5 State.init
      [.receive (some startEvent), .fire 0, .receive (some startEvent), .fire 0] =
      some { refresh := { isTriggered := false, timer := some { d := 5000000000 } }
             outstanding := []
             regenerating := 2 } ∧
    ¬ (∀ s : State, Reachable 5 s → s.outstanding.length + s.regenerating ≤ 1) := by
  have h1 : run 5 State.init
      [.receive (some startEvent), .fire 0, .receive (some startEvent)] =
      some { refresh := { isTriggered := true, timer := some { d := 5000000000 } }
             outstanding := [{ d := 5000000000 }]
             regenerating := 1 } := by decide
  refine ⟨h1, by decide, ?_⟩
  intro h
  exact absurd (h _ ⟨_, h1⟩) (by decide)

/-- C6, amended: at most one deferred trigger is outstanding in every
reachable state of the process, whatever the events, timer firings and
regeneration completions that led to it. -/
theorem outstanding_le_one (laziness : Int) (s : State) (h : Reachable laziness s) :
    s.outstanding.length ≤ 1 := by
  have hc := reachable_flagCounts laziness s h
  unfold FlagCounts at hc
  split at hc <;> omega

/-- C6, amended, at the state reached by an event, the firing of its timer and
another event. -/
theorem outstanding_le_one_witness :
    ({ refresh := { isTriggered := true, timer := some { d := 5000000000 } }
       outstanding := [{ d := 5000000000 }]
       regenerating := 1 } : State).outstanding.length ≤ 1 :=
  outstanding_le_one 5 _
    ⟨[.receive (some startEvent), .fire 0, .receive (some startEvent)], by decide⟩

end LogstashForwarder
